import Mathlib

/-!
Verification development for the shipment spreadsheet loader
(populate_database.py).

The script normalizes spreadsheet data along two paths and stores it in a
SQLite table.  We embed the data model shallowly:

* a pandas cell is a rational number, a string, or absent (NaN);
* a dataframe is a list of column names together with a list of rows whose
  fields are the cells the script actually touches;
* pd.to_numeric(errors = coerce).fillna(0).astype(int) becomes a total
  function from cells to integers, truncating toward zero;
* groupby(...)["quantity"].sum() becomes: drop rows whose group key is
  absent, take the distinct keys in ascending order, and reduce each
  group with the python addition on cell values (numbers add, strings
  concatenate, mixed types raise, NaN is masked out first); a raised
  error is modelled by Option.none and is caught by the surrounding
  try/except in the script, which returns None;
* merge(how = left) keeps every left row, expanding it by every matching
  right row, with absent origin/destination when there is no match;
* drop_duplicates(subset = [shipment_identifier]) keeps the first row of
  each identifier in list order.

The database layer (insert_into_database, the verification query and main)
is embedded as functions over an environment recording which files are
present, what reading them produced, and whether the connection attempt,
the insert and the verification query succeed; each returns the exception
outcome together with a count of connections opened and closed.
-/

/-- A spreadsheet cell: numeric value, string value, or absent (NaN). -/
inductive Cell where
  | num (q : ℚ)
  | str (s : String)
  | absent
deriving DecidableEq, Repr

/-- Numeric value of a digit list, most significant first. -/
def digitsVal (l : List Char) : ℕ :=
  l.foldl (fun a c => a * 10 + (c.toNat - 48)) 0

/-- Parse an unsigned decimal numeral, with an optional fractional part.
Model of the numeral grammar accepted by pd.to_numeric.  The value is
built with mkRat so that it evaluates by reduction. -/
def parseUnsigned (l : List Char) : Option ℚ :=
  match l.span Char.isDigit with
  | (ip, []) => if ip.isEmpty then none else some (mkRat (digitsVal ip) 1)
  | (ip, c :: fp) =>
      if c = '.' ∧ fp.all Char.isDigit ∧ (ip ≠ [] ∨ fp ≠ []) then
        some (mkRat (digitsVal ip * 10 ^ fp.length + digitsVal fp) (10 ^ fp.length))
      else none

/-- Parse a string as a number, as pd.to_numeric does; none models NaN. -/
def parseNumeric (s : String) : Option ℚ :=
  match s.toList with
  | '-' :: rest => (parseUnsigned rest).map (fun q => -q)
  | '+' :: rest => parseUnsigned rest
  | l => parseUnsigned l

/-- Truncation toward zero, the behaviour of astype(int) on a float. -/
def ratTrunc (q : ℚ) : ℤ :=
  if 0 ≤ q then ((q.num.toNat / q.den : ℕ) : ℤ)
  else -(((((-q).num.toNat / (-q).den : ℕ)) : ℤ))

/-- pd.to_numeric(c, errors = coerce).fillna(0).astype(int) on one cell:
numbers truncate toward zero, parseable strings are parsed then truncated,
everything else becomes 0.  Total: coercion never raises. -/
def coerceQty (c : Cell) : ℤ :=
  match c with
  | .num q => ratTrunc q
  | .str s =>
      match parseNumeric s with
      | some q => ratTrunc q
      | none => 0
  | .absent => 0

/-- The rational value pd.to_numeric(errors = coerce).fillna(0) assigns to a
cell, before astype(int). -/
def coerceRatQ (c : Cell) : ℚ :=
  match c with
  | .num q => q
  | .str s => (parseNumeric s).getD 0
  | .absent => 0

/-- Exact rational addition, written with mkRat so that it evaluates by
reduction; ratAdd_eq identifies it with the field addition of ℚ. -/
def ratAdd (a b : ℚ) : ℚ :=
  mkRat (a.num * b.den + b.num * a.den) (a.den * b.den)

/-- Python addition of two cell values: numbers add, strings concatenate,
mixed operands raise (modelled by none). -/
def addCells : Cell → Cell → Option Cell
  | .num a, .num b => some (.num (ratAdd a b))
  | .str a, .str b => some (.str (a ++ b))
  | _, _ => none

/-- Left fold of addCells, propagating a raised error. -/
def foldCells (acc : Cell) : List Cell → Option Cell
  | [] => some acc
  | c :: cs =>
      match addCells acc c with
      | some acc2 => foldCells acc2 cs
      | none => none

/-- Series.sum with skipna: mask out NaN, reduce the rest with python
addition; an empty or all-NaN list sums to 0. -/
def sumCells (l : List Cell) : Option Cell :=
  match l.filter (fun c => decide (c ≠ Cell.absent)) with
  | [] => some (Cell.num 0)
  | x :: xs => foldCells x xs

/-- drop_duplicates keep = first, by a key, with the already seen keys
accumulated. -/
def dedupFirstAux {α κ : Type} [DecidableEq κ] (key : α → κ) (seen : List κ) :
    List α → List α
  | [] => []
  | x :: xs =>
      if key x ∈ seen then dedupFirstAux key seen xs
      else x :: dedupFirstAux key (key x :: seen) xs

/-- drop_duplicates(subset = key, keep = first). -/
def dedupFirst {α κ : Type} [DecidableEq κ] (key : α → κ) (l : List α) : List α :=
  dedupFirstAux key [] l

/-- Option-valued map over a list, failing if any element fails. -/
def mapOpt {α β : Type} (f : α → Option β) : List α → Option (List β)
  | [] => some []
  | x :: xs =>
      match f x, mapOpt f xs with
      | some y, some ys => some (y :: ys)
      | _, _ => none

/-- Insert into a list sorted by a boolean relation. -/
def insertLe {α : Type} (le : α → α → Bool) (x : α) : List α → List α
  | [] => [x]
  | y :: ys => if le x y then x :: y :: ys else y :: insertLe le x ys

/-- Insertion sort by a boolean relation. -/
def sortLe {α : Type} (le : α → α → Bool) : List α → List α
  | [] => []
  | x :: xs => insertLe le x (sortLe le xs)

/-- Ascending order on (shipment_identifier, product) pairs, the order in
which groupby(sort = True) emits its groups: lexicographic on the
identifier and then the product, with strings compared by code points as
python compares them (stated on toList so that it evaluates by
reduction). -/
def keyLe (a b : String × String) : Bool :=
  decide (a.1.toList < b.1.toList ∨ (a.1 = b.1 ∧ a.2.toList ≤ b.2.toList))

/-! ## Path A: process_spreadsheet_0 -/

/-- A row of Spreadsheet 0, restricted to the columns the script touches. -/
structure Row0 where
  shipment_identifier : Cell
  product : Cell
  quantity : Cell
  origin : Cell
  destination : Cell
deriving DecidableEq, Repr

/-- Spreadsheet 0 as read: its column names and its rows.  A field of a row
is meaningful only when the matching column name is present. -/
structure Table0 where
  cols : List String
  rows : List Row0
deriving DecidableEq, Repr

/-- A canonical record produced by Path A. -/
structure OutRow0 where
  shipment_identifier : Cell
  product : Cell
  quantity : ℤ
  origin : Cell
  destination : Cell
deriving DecidableEq, Repr

/-- Path A output: which optional columns survived the projection, and the
records. -/
structure Output0 where
  keepOrigin : Bool
  keepDestination : Bool
  rows : List OutRow0
deriving DecidableEq, Repr

/-- Failure of a normalization path: the printed missing-column warning
(carrying the source index and the columns actually found, exactly as the
script prints df.columns), or a caught runtime error. -/
inductive PErr where
  | missing (source : ℕ) (available : List String)
  | runtime
deriving DecidableEq, Repr

/-- Equality of run results of a normalization path is decidable. -/
instance instDecEqExcept {e a : Type} [DecidableEq e] [DecidableEq a] :
    DecidableEq (Except e a) := fun x y =>
  match x, y with
  | .ok v, .ok w =>
      match decEq v w with
      | isTrue h => isTrue (by rw [h])
      | isFalse h => isFalse (by intro he; cases he; exact h rfl)
  | .error v, .error w =>
      match decEq v w with
      | isTrue h => isTrue (by rw [h])
      | isFalse h => isFalse (by intro he; cases he; exact h rfl)
  | .ok _, .error _ => isFalse (by intro he; cases he)
  | .error _, .ok _ => isFalse (by intro he; cases he)

/-- Quantity coercion applied to a whole row (line 46 of the script). -/
def coerceRow0 (r : Row0) : OutRow0 :=
  ⟨r.shipment_identifier, r.product, coerceQty r.quantity, r.origin, r.destination⟩

/-- The columns process_spreadsheet_0 requires. -/
def requiredA : List String := ["shipment_identifier", "product", "quantity"]

/-- process_spreadsheet_0: check required columns, project, coerce quantity,
drop duplicate identifiers keeping the first. -/
def process_spreadsheet_0 (df : Table0) : Except PErr Output0 :=
  if requiredA.all df.cols.contains then
    .ok ⟨df.cols.contains "origin", df.cols.contains "destination",
      dedupFirst (fun r => r.shipment_identifier) (df.rows.map coerceRow0)⟩
  else .error (.missing 0 df.cols)

/-! ## Path B: process_spreadsheets_1_and_2 -/

/-- A row of Spreadsheet 1: group keys (absent = NaN) and a quantity cell. -/
structure Row1 where
  shipment_identifier : Option String
  product : Option String
  quantity : Cell
deriving DecidableEq, Repr

/-- Spreadsheet 1 as read. -/
structure Table1 where
  cols : List String
  rows : List Row1
deriving DecidableEq, Repr

/-- A row of Spreadsheet 2: join key and routing cells. -/
structure Row2 where
  shipment_identifier : Option String
  origin : Cell
  destination : Cell
deriving DecidableEq, Repr

/-- Spreadsheet 2 as read. -/
structure Table2 where
  cols : List String
  rows : List Row2
deriving DecidableEq, Repr

/-- A row of df1_grouped: one (identifier, product) group and its summed
quantity cell. -/
structure GRow where
  shipment_identifier : String
  product : String
  quantity : Cell
deriving DecidableEq, Repr

/-- A row of the merged frame, before fillna and coercion. -/
structure MRow where
  shipment_identifier : String
  product : String
  quantity : Cell
  origin : Cell
  destination : Cell
deriving DecidableEq, Repr

/-- A canonical record produced by Path B. -/
structure OutRowB where
  shipment_identifier : String
  product : String
  quantity : ℤ
  origin : Cell
  destination : Cell
deriving DecidableEq, Repr

/-- The group key of a Spreadsheet 1 row; none when either key cell is
absent (groupby drops such rows). -/
def rowKey (r : Row1) : Option (String × String) :=
  match r.shipment_identifier, r.product with
  | some i, some p => some (i, p)
  | _, _ => none

/-- The distinct group keys in ascending order, as groupby(sort = True)
emits them. -/
def groupKeysOf (rows : List Row1) : List (String × String) :=
  sortLe keyLe (dedupFirst id (rows.filterMap rowKey))

/-- The rows of one group, in source order. -/
def groupRows (rows : List Row1) (k : String × String) : List Row1 :=
  rows.filter (fun r => decide (rowKey r = some k))

/-- df1.groupby(["shipment_identifier", "product"])["quantity"].sum():
none models a raised error (mixed-type addition), caught by the script. -/
def df1_grouped (rows : List Row1) : Option (List GRow) :=
  mapOpt
    (fun k =>
      (sumCells ((groupRows rows k).map (fun r => r.quantity))).map
        (fun q => ⟨k.1, k.2, q⟩))
    (groupKeysOf rows)

/-- The merged rows one grouped row contributes: one row per matching
Spreadsheet 2 row, or a single row with absent routing cells when there is
no match (left join). -/
def blockOf (gr : GRow) (rows2 : List Row2) : List MRow :=
  match rows2.filter (fun r2 => decide (r2.shipment_identifier = some gr.shipment_identifier)) with
  | [] => [⟨gr.shipment_identifier, gr.product, gr.quantity, Cell.absent, Cell.absent⟩]
  | m :: ms => (m :: ms).map
      (fun r2 => ⟨gr.shipment_identifier, gr.product, gr.quantity, r2.origin, r2.destination⟩)

/-- pd.merge(df1_grouped, df2[...], on = shipment_identifier, how = left):
every grouped row is retained, in grouped order. -/
def mergeLeft (g : List GRow) (rows2 : List Row2) : List MRow :=
  match g with
  | [] => []
  | gr :: rest => blockOf gr rows2 ++ mergeLeft rest rows2

/-- fillna("Unknown") on one cell. -/
def fillUnknown (c : Cell) : Cell :=
  if c = Cell.absent then Cell.str "Unknown" else c

/-- Lines 69 and 70: fillna("Unknown") on origin and destination. -/
def fillRow (r : MRow) : MRow :=
  { r with origin := fillUnknown r.origin, destination := fillUnknown r.destination }

/-- Line 71: quantity coercion on a merged row. -/
def coerceMRow (r : MRow) : OutRowB :=
  ⟨r.shipment_identifier, r.product, coerceQty r.quantity, r.origin, r.destination⟩

/-- The columns required of Spreadsheet 1. -/
def requiredB1 : List String := ["shipment_identifier", "product", "quantity"]

/-- The columns required of Spreadsheet 2. -/
def requiredB2 : List String := ["shipment_identifier", "origin", "destination"]

/-- Group, merge, fill routing defaults, coerce quantity, drop duplicate
identifiers: lines 62 to 72 after the column checks. -/
def pathBRecords (rows1 : List Row1) (rows2 : List Row2) : Option (List OutRowB) :=
  (df1_grouped rows1).map
    (fun g =>
      dedupFirst (fun r => r.shipment_identifier)
        (((mergeLeft g rows2).map fillRow).map coerceMRow))

/-- process_spreadsheets_1_and_2: column checks on both sources, then the
group/merge/fill/coerce/dedup pipeline; a raised error inside the try block
is caught and reported. -/
def process_spreadsheets_1_and_2 (df1 : Table1) (df2 : Table2) :
    Except PErr (List OutRowB) :=
  if !(requiredB1.all df1.cols.contains) then .error (.missing 1 df1.cols)
  else if !(requiredB2.all df2.cols.contains) then .error (.missing 2 df2.cols)
  else
    match pathBRecords df1.rows df2.rows with
    | some out => .ok out
    | none => .error .runtime

/-! ## Storage layer and main -/

/-- How many database connections a code region opened and closed. -/
structure ConnTrace where
  opened : ℕ
  closed : ℕ
deriving DecidableEq, Repr

/-- The exception escaping insert_into_database: when the connection attempt
itself raises, the except clause catches it, but the finally clause then
evaluates conn.close() with conn never bound, raising again. -/
inductive DbFail where
  | unboundConn
deriving DecidableEq, Repr

/-- insert_into_database, abstracted over the record count of its input
(none = the normalizer returned None), the outcome of sqlite3.connect and
the outcome of to_sql.  Returns the exception outcome (ok true = rows
inserted, ok false = nothing inserted or a caught insert error) and the
connection trace. -/
def insert_into_database (df : Option ℕ) (connectOk insertOk : Bool) :
    Except DbFail Bool × ConnTrace :=
  match df with
  | none => (.ok false, ⟨0, 0⟩)
  | some 0 => (.ok false, ⟨0, 0⟩)
  | some (_ + 1) =>
      if connectOk then (.ok insertOk, ⟨1, 1⟩)
      else (.error .unboundConn, ⟨0, 0⟩)

/-- The verification block of main: connect, run the sample query, print,
close.  The close call is inside the try block, after the query: a failing
query skips it.  Returns whether verification succeeded and the trace. -/
def verifyDb (connectOk queryOk : Bool) : Bool × ConnTrace :=
  if connectOk then
    if queryOk then (true, ⟨1, 1⟩) else (false, ⟨1, 0⟩)
  else (false, ⟨0, 0⟩)

/-- The record count insert_into_database sees after Path A. -/
def recCount0 (r : Except PErr Output0) : Option ℕ :=
  match r with
  | .ok o => some o.rows.length
  | .error _ => none

/-- The record count insert_into_database sees after Path B. -/
def recCountB (r : Except PErr (List OutRowB)) : Option ℕ :=
  match r with
  | .ok o => some o.length
  | .error _ => none

/-- The environment main runs in: directory and file discovery outcomes,
read outcomes per source (none = read_spreadsheet returned None), and the
storage oracle outcomes. -/
structure Env where
  dirExists : Bool
  anyFiles : Bool
  sheet0Present : Bool
  sheet1Present : Bool
  sheet2Present : Bool
  read0 : Option Table0
  read1 : Option Table1
  read2 : Option Table2
  connect0 : Bool
  insert0 : Bool
  connect12 : Bool
  insert12 : Bool
  verifyConnect : Bool
  verifyQuery : Bool
deriving Repr

/-- What a run of main did. finished is true when main returned without an
exception escaping it; mainCaught is true when the top level except clause
fired; the Attempted flags record which pipeline sections were reached. -/
structure RunResult where
  finished : Bool
  mainCaught : Bool
  pathAAttempted : Bool
  pathBAttempted : Bool
  verifyAttempted : Bool
deriving DecidableEq, Repr

/-- The Spreadsheet 0 section of main: read, normalize, store; an exception
from the store stage propagates. -/
def stepA (env : Env) : Except DbFail Unit :=
  if env.sheet0Present then
    match env.read0 with
    | some df =>
        ((insert_into_database (recCount0 (process_spreadsheet_0 df))
          env.connect0 env.insert0).1).map (fun _ => ())
    | none => .ok ()
  else .ok ()

/-- The Spreadsheets 1 and 2 section of main. -/
def stepB (env : Env) : Except DbFail Unit :=
  if env.sheet1Present && env.sheet2Present then
    match env.read1, env.read2 with
    | some df1, some df2 =>
        ((insert_into_database (recCountB (process_spreadsheets_1_and_2 df1 df2))
          env.connect12 env.insert12).1).map (fun _ => ())
    | _, _ => .ok ()
  else .ok ()

/-- mainRun models main: directory check, file discovery, Path A section, Path B section,
verification; everything wrapped in one try/except, so an exception raised
in the Path A section skips the Path B section and verification. -/
def mainRun (env : Env) : RunResult :=
  if !env.dirExists then ⟨true, false, false, false, false⟩
  else if !env.anyFiles then ⟨true, false, false, false, false⟩
  else
    match stepA env with
    | .error _ => ⟨true, true, true, false, false⟩
    | .ok _ =>
        match stepB env with
        | .error _ => ⟨true, true, true, true, false⟩
        | .ok _ =>
            match verifyDb env.verifyConnect env.verifyQuery with
            | _ => ⟨true, false, true, true, true⟩

/-! ## Lemmas about drop_duplicates -/

theorem dedupFirstAux_sublist {α κ : Type} [DecidableEq κ] (key : α → κ)
    (seen : List κ) (l : List α) : List.Sublist (dedupFirstAux key seen l) l := by
  induction l generalizing seen with
  | nil => simp [dedupFirstAux]
  | cons x xs ih =>
      simp only [dedupFirstAux]
      split
      · exact (ih seen).cons x
      · exact (ih (key x :: seen)).cons₂ x

theorem mem_dedupFirstAux_not_seen {α κ : Type} [DecidableEq κ] {key : α → κ}
    {seen : List κ} {l : List α} {x : α}
    (h : x ∈ dedupFirstAux key seen l) : key x ∉ seen := by
  induction l generalizing seen with
  | nil => simp [dedupFirstAux] at h
  | cons a as ih =>
      simp only [dedupFirstAux] at h
      split at h
      · exact ih h
      · rcases List.mem_cons.mp h with rfl | hx
        · assumption
        · intro hs
          exact ih hx (List.mem_cons_of_mem _ hs)

theorem dedupFirstAux_pairwise {α κ : Type} [DecidableEq κ] (key : α → κ)
    (seen : List κ) (l : List α) :
    (dedupFirstAux key seen l).Pairwise (fun a b => key a ≠ key b) := by
  induction l generalizing seen with
  | nil => simp [dedupFirstAux]
  | cons a as ih =>
      simp only [dedupFirstAux]
      split
      · exact ih seen
      · refine List.Pairwise.cons ?_ (ih (key a :: seen))
        intro b hb hkey
        exact mem_dedupFirstAux_not_seen hb (by rw [← hkey]; exact List.mem_cons_self _ _)

theorem dedupFirstAux_find? {α κ : Type} [DecidableEq κ] {key : α → κ}
    {seen : List κ} {l : List α} {x : α}
    (h : x ∈ dedupFirstAux key seen l) :
    l.find? (fun y => decide (key y = key x)) = some x := by
  induction l generalizing seen with
  | nil => simp [dedupFirstAux] at h
  | cons a as ih =>
      simp only [dedupFirstAux] at h
      split at h
      case isTrue hseen =>
        have hxs : key x ∉ seen := mem_dedupFirstAux_not_seen h
        have hne : ¬(key a = key x) := fun he => hxs (he ▸ hseen)
        rw [List.find?_cons_of_neg _ (by simp [hne])]
        exact ih h
      case isFalse hseen =>
        rcases List.mem_cons.mp h with rfl | hx
        · rw [List.find?_cons_of_pos _ (by simp)]
        · have hxs : key x ∉ key a :: seen := mem_dedupFirstAux_not_seen hx
          have hne : ¬(key a = key x) := fun he => hxs (he ▸ List.mem_cons_self _ _)
          rw [List.find?_cons_of_neg _ (by simp [hne])]
          exact ih hx

theorem dedupFirst_sublist {α κ : Type} [DecidableEq κ] (key : α → κ) (l : List α) :
    List.Sublist (dedupFirst key l) l :=
  dedupFirstAux_sublist key [] l

theorem mem_dedupFirst {α κ : Type} [DecidableEq κ] {key : α → κ} {l : List α} {x : α}
    (h : x ∈ dedupFirst key l) : x ∈ l :=
  (dedupFirst_sublist key l).subset h

theorem dedupFirst_pairwise {α κ : Type} [DecidableEq κ] (key : α → κ) (l : List α) :
    (dedupFirst key l).Pairwise (fun a b => key a ≠ key b) :=
  dedupFirstAux_pairwise key [] l

theorem dedupFirst_find? {α κ : Type} [DecidableEq κ] {key : α → κ} {l : List α} {x : α}
    (h : x ∈ dedupFirst key l) :
    l.find? (fun y => decide (key y = key x)) = some x :=
  dedupFirstAux_find? h

theorem find?_min_of_pairwise {α : Type} {R : α → α → Prop} {l : List α}
    {p : α → Bool} {a b : α} (hp : l.Pairwise R) (hf : l.find? p = some a)
    (hb : b ∈ l) (hpb : p b = true) : a = b ∨ R a b := by
  induction l with
  | nil => simp at hb
  | cons x xs ih =>
      rcases List.mem_cons.mp hb with rfl | hb2
      · rw [List.find?_cons_of_pos _ hpb] at hf
        exact Or.inl (Option.some_injective _ hf).symm
      · cases hpx : p x with
        | true =>
            rw [List.find?_cons_of_pos _ hpx] at hf
            cases Option.some_injective _ hf
            exact Or.inr ((List.pairwise_cons.mp hp).1 b hb2)
        | false =>
            rw [List.find?_cons_of_neg _ (by simp [hpx])] at hf
            exact ih (List.pairwise_cons.mp hp).2 hf hb2

/-! ## Shape of successful normalization results -/

theorem process_spreadsheet_0_ok {df : Table0} {out : Output0}
    (h : process_spreadsheet_0 df = .ok out) :
    out.rows = dedupFirst (fun r => r.shipment_identifier) (df.rows.map coerceRow0) := by
  unfold process_spreadsheet_0 at h
  split at h
  · cases h
    rfl
  · simp at h

theorem process_12_ok {df1 : Table1} {df2 : Table2} {out : List OutRowB}
    (h : process_spreadsheets_1_and_2 df1 df2 = .ok out) :
    ∃ g, df1_grouped df1.rows = some g ∧
      out = dedupFirst (fun r => r.shipment_identifier)
        (((mergeLeft g df2.rows).map fillRow).map coerceMRow) := by
  unfold process_spreadsheets_1_and_2 at h
  split at h
  · simp at h
  · split at h
    · simp at h
    · split at h
      case h_2 => simp at h
      case h_1 v heq =>
        cases h
        unfold pathBRecords at heq
        rcases Option.map_eq_some'.mp heq with ⟨g, hg, hv⟩
        exact ⟨g, hg, hv.symm⟩

/-- C3: within either normalization path the output holds at most one
record per shipment identifier, and the record surviving for an identifier
is the first record carrying that identifier in the path row order: source
order (after coercion) for Path A, post-join post-aggregation order (after
fillna and coercion) for Path B. -/
theorem c3_unique_identifier_first_wins :
    (∀ (df : Table0) (out : Output0), process_spreadsheet_0 df = .ok out →
      out.rows.Pairwise (fun a b => a.shipment_identifier ≠ b.shipment_identifier) ∧
      ∀ rec ∈ out.rows,
        (df.rows.map coerceRow0).find?
          (fun r => decide (r.shipment_identifier = rec.shipment_identifier)) = some rec) ∧
    (∀ (df1 : Table1) (df2 : Table2) (out : List OutRowB),
      process_spreadsheets_1_and_2 df1 df2 = .ok out →
      out.Pairwise (fun a b => a.shipment_identifier ≠ b.shipment_identifier) ∧
      ∃ g, df1_grouped df1.rows = some g ∧
        ∀ rec ∈ out,
          (((mergeLeft g df2.rows).map fillRow).map coerceMRow).find?
            (fun r => decide (r.shipment_identifier = rec.shipment_identifier)) = some rec) := by
  constructor
  · intro df out h
    have hrows := process_spreadsheet_0_ok h
    constructor
    · rw [hrows]
      exact dedupFirst_pairwise _ _
    · intro rec hrec
      rw [hrows] at hrec
      exact dedupFirst_find? hrec
  · intro df1 df2 out h
    rcases process_12_ok h with ⟨g, hg, hout⟩
    refine ⟨?_, g, hg, ?_⟩
    · rw [hout]
      exact dedupFirst_pairwise _ _
    · intro rec hrec
      rw [hout] at hrec
      exact dedupFirst_find? hrec

/-- Input for the C3 witness: identifier A occurs twice with different
payloads, then identifier B. -/
def w3df : Table0 :=
  ⟨["shipment_identifier", "product", "quantity"],
   [⟨Cell.str "A", Cell.str "w", Cell.num 1, Cell.absent, Cell.absent⟩,
    ⟨Cell.str "A", Cell.str "x", Cell.num 2, Cell.absent, Cell.absent⟩,
    ⟨Cell.str "B", Cell.str "y", Cell.num 3, Cell.absent, Cell.absent⟩]⟩

/-- Output of Path A on the C3 witness input: the first A row survives. -/
def w3out : Output0 :=
  ⟨false, false,
   [⟨Cell.str "A", Cell.str "w", 1, Cell.absent, Cell.absent⟩,
    ⟨Cell.str "B", Cell.str "y", 3, Cell.absent, Cell.absent⟩]⟩

/-- Witness for C3 at a concrete input: the surviving record for A is the
first A row of the source. -/
theorem c3_witness :
    (w3df.rows.map coerceRow0).find?
      (fun r => decide (r.shipment_identifier = Cell.str "A")) =
      some ⟨Cell.str "A", Cell.str "w", 1, Cell.absent, Cell.absent⟩ := by
  have h := (c3_unique_identifier_first_wins.1 w3df w3out rfl).2
      ⟨Cell.str "A", Cell.str "w", 1, Cell.absent, Cell.absent⟩ (by simp [w3out])
  exact h

/-- Counterexample input for C2: Spreadsheet 0 whose columns are only
[product, quantity]. -/
def c2df : Table0 := ⟨["product", "quantity"], []⟩

/-- C2 as stated is false: on a dataset missing shipment_identifier, the
failure carries the columns actually found, and the missing column is not
among them, so the error does not name the missing columns. -/
theorem c2_counterexample :
    process_spreadsheet_0 c2df = .error (PErr.missing 0 ["product", "quantity"]) ∧
    "shipment_identifier" ∈ requiredA ∧
    "shipment_identifier" ∉ (["product", "quantity"] : List String) :=
  ⟨rfl, by decide, by decide⟩

/-- C2 amended: each path fails on a missing required column, and the
failure names the columns actually found in the offending source (not the
missing ones). -/
theorem c2_amended_missing_columns :
    (∀ df : Table0, (∃ c ∈ requiredA, df.cols.contains c = false) →
      process_spreadsheet_0 df = .error (.missing 0 df.cols)) ∧
    (∀ (df1 : Table1) (df2 : Table2),
      (∃ c ∈ requiredB1, df1.cols.contains c = false) →
      process_spreadsheets_1_and_2 df1 df2 = .error (.missing 1 df1.cols)) ∧
    (∀ (df1 : Table1) (df2 : Table2), requiredB1.all df1.cols.contains = true →
      (∃ c ∈ requiredB2, df2.cols.contains c = false) →
      process_spreadsheets_1_and_2 df1 df2 = .error (.missing 2 df2.cols)) := by
  refine ⟨?_, ?_, ?_⟩
  · rintro df ⟨c, hc, hcf⟩
    have hall : requiredA.all df.cols.contains = false := by
      cases hall : requiredA.all df.cols.contains with
      | false => rfl
      | true =>
          have hct := List.all_eq_true.mp hall c hc
          rw [hcf] at hct
          simp at hct
    simp [process_spreadsheet_0, hall]
  · rintro df1 df2 ⟨c, hc, hcf⟩
    have hall : requiredB1.all df1.cols.contains = false := by
      cases hall : requiredB1.all df1.cols.contains with
      | false => rfl
      | true =>
          have hct := List.all_eq_true.mp hall c hc
          rw [hcf] at hct
          simp at hct
    simp [process_spreadsheets_1_and_2, hall]
  · rintro df1 df2 h1 ⟨c, hc, hcf⟩
    have hall : requiredB2.all df2.cols.contains = false := by
      cases hall : requiredB2.all df2.cols.contains with
      | false => rfl
      | true =>
          have hct := List.all_eq_true.mp hall c hc
          rw [hcf] at hct
          simp at hct
    simp [process_spreadsheets_1_and_2, h1, hall]

/-- Input for the C2 witness: Spreadsheet 1 with only the identifier
column. -/
def w2df1 : Table1 := ⟨["shipment_identifier"], []⟩

/-- Input for the C2 witness: a well-formed Spreadsheet 2. -/
def w2df2 : Table2 := ⟨["shipment_identifier", "origin", "destination"], []⟩

/-- Witness for the amended C2 at a concrete input. -/
theorem c2_witness :
    process_spreadsheets_1_and_2 w2df1 w2df2 =
      .error (.missing 1 ["shipment_identifier"]) :=
  c2_amended_missing_columns.2.1 w2df1 w2df2 ⟨"product", by decide, by decide⟩

/-! ## Coercion behaviour (C5) -/

/-- A quantity cell the spec calls non-numeric or absent. -/
def isNonNumericCell (c : Cell) : Prop :=
  match c with
  | .num _ => False
  | .str s => parseNumeric s = none
  | .absent => True

/-- Counterexample input for C5: one group whose quantity cells are the
non-numeric string "-" and the numeric string "5". -/
def c5df1 : Table1 :=
  ⟨["shipment_identifier", "product", "quantity"],
   [⟨some "a", some "p", Cell.str "-"⟩, ⟨some "a", some "p", Cell.str "5"⟩]⟩

/-- Second input for the C5 counterexample. -/
def c5df2 : Table2 := ⟨["shipment_identifier", "origin", "destination"], []⟩

/-- C5 as stated is false in Path B: the row with the non-numeric quantity
"-" belongs to a group whose aggregation concatenates "-" and "5" into
"-5", so the output record carries quantity -5, not 0. -/
theorem c5_counterexample :
    parseNumeric "-" = none ∧
    process_spreadsheets_1_and_2 c5df1 c5df2 =
      .ok [⟨"a", "p", -5, Cell.str "Unknown", Cell.str "Unknown"⟩] ∧
    (-5 : ℤ) ≠ 0 :=
  ⟨rfl, rfl, by decide⟩

/-- C5 amended: the coercion itself is a total function sending every
non-numeric or absent cell to 0, and in Path A it is applied to each row,
so every output record is the coercion of some source row; in Path B the
coercion applies to the aggregated cell of a group, not to each source
row. -/
theorem c5_amended_coercion_total :
    (∀ c : Cell, isNonNumericCell c → coerceQty c = 0) ∧
    (∀ (df : Table0) (out : Output0), process_spreadsheet_0 df = .ok out →
      ∀ rec ∈ out.rows, ∃ r ∈ df.rows, rec = coerceRow0 r) := by
  constructor
  · intro c hc
    cases c with
    | num q => exact absurd hc (by simp [isNonNumericCell])
    | str s =>
        have hs : parseNumeric s = none := hc
        simp [coerceQty, hs]
    | absent => rfl
  · intro df out h rec hrec
    rw [process_spreadsheet_0_ok h] at hrec
    rcases List.mem_map.mp (mem_dedupFirst hrec) with ⟨r, hr, hreq⟩
    exact ⟨r, hr, hreq.symm⟩

/-- Input for the C5 witness: a single row with a non-numeric quantity. -/
def w5df : Table0 :=
  ⟨["shipment_identifier", "product", "quantity"],
   [⟨Cell.str "S", Cell.str "P", Cell.str "bad", Cell.absent, Cell.absent⟩]⟩

/-- Witness for the amended C5 at concrete inputs. -/
theorem c5_witness :
    coerceQty (Cell.str "bad") = 0 ∧
    (∃ r ∈ w5df.rows,
      (⟨Cell.str "S", Cell.str "P", 0, Cell.absent, Cell.absent⟩ : OutRow0) = coerceRow0 r) :=
  ⟨c5_amended_coercion_total.1 (Cell.str "bad") (by simp [isNonNumericCell]; rfl),
   c5_amended_coercion_total.2 w5df
     ⟨false, false, [⟨Cell.str "S", Cell.str "P", 0, Cell.absent, Cell.absent⟩]⟩ rfl
     ⟨Cell.str "S", Cell.str "P", 0, Cell.absent, Cell.absent⟩ (by decide)⟩

/-! ## Determinism (C8) -/

/-- C8: each normalization path is a pure, deterministic function of its
raw input, so two runs on equal inputs return identical canonical output.
In this embedding both paths are Lean functions, so this holds by
construction. -/
theorem c8_normalizer_deterministic :
    (∀ df dfb : Table0, df = dfb →
      process_spreadsheet_0 df = process_spreadsheet_0 dfb) ∧
    (∀ (d1 d1b : Table1) (d2 d2b : Table2), d1 = d1b → d2 = d2b →
      process_spreadsheets_1_and_2 d1 d2 = process_spreadsheets_1_and_2 d1b d2b) := by
  constructor
  · intro df dfb h
    rw [h]
  · intro d1 d1b d2 d2b h1 h2
    rw [h1, h2]

/-- Input for the C8 witness. -/
def w8df : Table0 :=
  ⟨["shipment_identifier", "product", "quantity"],
   [⟨Cell.str "Z", Cell.str "p", Cell.num 4, Cell.absent, Cell.absent⟩]⟩

/-- Witness for C8 at a concrete input. -/
theorem c8_witness :
    process_spreadsheet_0 w8df = process_spreadsheet_0 w8df :=
  c8_normalizer_deterministic.1 w8df w8df rfl

/-! ## The left join (C4) -/

theorem mem_blockOf {gr : GRow} {rows2 : List Row2} {m : MRow}
    (h : m ∈ blockOf gr rows2) :
    m.shipment_identifier = gr.shipment_identifier ∧
      m.product = gr.product ∧ m.quantity = gr.quantity := by
  unfold blockOf at h
  split at h
  · have := List.mem_singleton.mp h
    subst this
    exact ⟨rfl, rfl, rfl⟩
  · rcases List.mem_map.mp h with ⟨r2, hr2, hm⟩
    subst hm
    exact ⟨rfl, rfl, rfl⟩

theorem blockOf_exists_mem (gr : GRow) (rows2 : List Row2) :
    ∃ m ∈ blockOf gr rows2,
      m.shipment_identifier = gr.shipment_identifier ∧
        m.product = gr.product ∧ m.quantity = gr.quantity := by
  unfold blockOf
  split
  · exact ⟨_, List.mem_singleton_self _, rfl, rfl, rfl⟩
  case h_2 m ms heq =>
      exact ⟨⟨gr.shipment_identifier, gr.product, gr.quantity, m.origin, m.destination⟩,
        List.mem_map_of_mem _ (List.mem_cons_self m ms), rfl, rfl, rfl⟩

theorem mem_mergeLeft {g : List GRow} {rows2 : List Row2} {m : MRow}
    (h : m ∈ mergeLeft g rows2) : ∃ gr ∈ g, m ∈ blockOf gr rows2 := by
  induction g with
  | nil => simp [mergeLeft] at h
  | cons gr rest ih =>
      simp only [mergeLeft] at h
      rcases List.mem_append.mp h with h1 | h2
      · exact ⟨gr, List.mem_cons_self _ _, h1⟩
      · rcases ih h2 with ⟨gr2, hgr2, hm⟩
        exact ⟨gr2, List.mem_cons_of_mem _ hgr2, hm⟩

theorem mergeLeft_mem_of_block {g : List GRow} {rows2 : List Row2} {gr : GRow}
    (hgr : gr ∈ g) {m : MRow} (hm : m ∈ blockOf gr rows2) :
    m ∈ mergeLeft g rows2 := by
  induction g with
  | nil => simp at hgr
  | cons gr0 rest ih =>
      simp only [mergeLeft]
      rcases List.mem_cons.mp hgr with rfl | hgr2
      · exact List.mem_append_left _ hm
      · exact List.mem_append_right _ (ih hgr2)

theorem blockOf_no_match {gr : GRow} {rows2 : List Row2} {m : MRow}
    (hm : m ∈ blockOf gr rows2)
    (hno : ∀ r2 ∈ rows2, r2.shipment_identifier ≠ some m.shipment_identifier) :
    m.origin = Cell.absent ∧ m.destination = Cell.absent := by
  have hkey := mem_blockOf hm
  unfold blockOf at hm
  split at hm
  · have := List.mem_singleton.mp hm
    subst this
    exact ⟨rfl, rfl⟩
  case h_2 mr ms heq =>
      rcases List.mem_map.mp hm with ⟨r2b, hr2b, hmeq⟩
      have hr2mem : r2b ∈ rows2.filter
          (fun x => decide (x.shipment_identifier = some gr.shipment_identifier)) := by
        rw [heq]
        exact hr2b
      have hr2 := List.mem_filter.mp hr2mem
      exfalso
      apply hno r2b hr2.1
      have hid : r2b.shipment_identifier = some gr.shipment_identifier := by
        have := hr2.2
        simpa using this
      rw [hid, ← hkey.1]

/-- C4: every grouped row from the quantity-bearing source is retained in
the left-join output whether or not the routing source matches it, and a
merged row whose identifier has no match in the routing source gets origin
and destination "Unknown" after fillna. -/
theorem c4_left_join_retention_unknown :
    ∀ (rows1 : List Row1) (rows2 : List Row2) (g : List GRow),
      df1_grouped rows1 = some g →
      (∀ gr ∈ g, ∃ m ∈ mergeLeft g rows2,
        m.shipment_identifier = gr.shipment_identifier ∧
          m.product = gr.product ∧ m.quantity = gr.quantity) ∧
      (∀ m ∈ (mergeLeft g rows2).map fillRow,
        (∀ r2 ∈ rows2, r2.shipment_identifier ≠ some m.shipment_identifier) →
        m.origin = Cell.str "Unknown" ∧ m.destination = Cell.str "Unknown") := by
  intro rows1 rows2 g hg
  constructor
  · intro gr hgr
    rcases blockOf_exists_mem gr rows2 with ⟨m, hm, hf⟩
    exact ⟨m, mergeLeft_mem_of_block hgr hm, hf⟩
  · intro m hm hno
    rcases List.mem_map.mp hm with ⟨m0, hm0, hfeq⟩
    subst hfeq
    rcases mem_mergeLeft hm0 with ⟨gr, hgr, hblock⟩
    have hno0 : ∀ r2 ∈ rows2, r2.shipment_identifier ≠ some m0.shipment_identifier :=
      fun r2 hr2 => hno r2 hr2
    have habs := blockOf_no_match hblock hno0
    simp [fillRow, fillUnknown, habs.1, habs.2]

/-- First input for the C4 witness. -/
def w4rows1 : List Row1 := [⟨some "X", some "p", Cell.num 2⟩]

/-- Grouped form of the C4 witness input. -/
def w4g : List GRow := [⟨"X", "p", Cell.num 2⟩]

/-- Witness for C4 at concrete inputs: the grouped row survives the join
against an empty routing source and its filled routing cells are
"Unknown". -/
theorem c4_witness :
    (∃ m ∈ mergeLeft w4g [], m.shipment_identifier = "X" ∧
      m.product = "p" ∧ m.quantity = Cell.num 2) ∧
    (fillRow ⟨"X", "p", Cell.num 2, Cell.absent, Cell.absent⟩).origin = Cell.str "Unknown" ∧
    (fillRow ⟨"X", "p", Cell.num 2, Cell.absent, Cell.absent⟩).destination = Cell.str "Unknown" := by
  have h := c4_left_join_retention_unknown w4rows1 [] w4g rfl
  refine ⟨h.1 ⟨"X", "p", Cell.num 2⟩ (by decide), ?_⟩
  exact h.2 (fillRow ⟨"X", "p", Cell.num 2, Cell.absent, Cell.absent⟩)
    (by decide) (by simp)

/-! ## Aggregation (C1, C10) -/

/-- A cell that is numeric or absent (not a string). -/
def numOrAbsent (c : Cell) : Prop :=
  match c with
  | .num _ => True
  | .str _ => False
  | .absent => True

theorem ratAdd_eq (a b : ℚ) : ratAdd a b = a + b := by
  unfold ratAdd
  have ha : (a.den : ℚ) ≠ 0 := by
    exact_mod_cast a.den_nz
  have hb : (b.den : ℚ) ≠ 0 := by
    exact_mod_cast b.den_nz
  rw [Rat.mkRat_eq_div]
  conv_rhs => rw [← Rat.num_div_den a, ← Rat.num_div_den b]
  rw [div_add_div _ _ ha hb]
  congr 1
  · push_cast
    ring
  · push_cast
    ring

theorem foldCells_num (a : ℚ) (l : List Cell)
    (h : ∀ c ∈ l, ∃ q, c = Cell.num q) :
    foldCells (Cell.num a) l = some (Cell.num (a + (l.map coerceRatQ).sum)) := by
  induction l generalizing a with
  | nil => simp [foldCells]
  | cons c cs ih =>
      rcases h c (List.mem_cons_self _ _) with ⟨q, rfl⟩
      simp only [foldCells, addCells]
      rw [ratAdd_eq]
      rw [ih (a + q) (fun c hc => h c (List.mem_cons_of_mem _ hc))]
      have hq : (a + q) + ((cs.map coerceRatQ).sum) =
          a + (((Cell.num q :: cs).map coerceRatQ).sum) := by
        simp [coerceRatQ]
        ring
      rw [hq]

theorem sum_coerceRatQ_filter (l : List Cell) :
    ((l.filter (fun c => decide (c ≠ Cell.absent))).map coerceRatQ).sum =
      (l.map coerceRatQ).sum := by
  induction l with
  | nil => rfl
  | cons c cs ih =>
      by_cases hc : c = Cell.absent
      · subst hc
        have hfc : (Cell.absent :: cs).filter (fun c => decide (c ≠ Cell.absent)) =
            cs.filter (fun c => decide (c ≠ Cell.absent)) := by
          simp [List.filter_cons]
        rw [hfc, ih]
        simp [coerceRatQ]
      · have hfc : (c :: cs).filter (fun c => decide (c ≠ Cell.absent)) =
            c :: cs.filter (fun c => decide (c ≠ Cell.absent)) := by
          simp [List.filter_cons, hc]
        rw [hfc]
        simp only [List.map_cons, List.sum_cons, ih]

theorem sumCells_num {l : List Cell} (h : ∀ c ∈ l, numOrAbsent c) :
    sumCells l = some (Cell.num ((l.map coerceRatQ).sum)) := by
  have hf : ∀ c ∈ l.filter (fun c => decide (c ≠ Cell.absent)), ∃ q, c = Cell.num q := by
    intro c hc
    have hmem := List.mem_filter.mp hc
    have hnum := h c hmem.1
    cases c with
    | num q => exact ⟨q, rfl⟩
    | str s => exact absurd hnum (by simp [numOrAbsent])
    | absent => simpa using hmem.2
  unfold sumCells
  split
  case h_1 heq =>
      have hz : (l.map coerceRatQ).sum = 0 := by
        rw [← sum_coerceRatQ_filter l, heq]
        rfl
      rw [hz]
  case h_2 x xs heq =>
      rcases hf x (by rw [heq]; exact List.mem_cons_self _ _) with ⟨q, rfl⟩
      rw [foldCells_num q xs (fun c hc => hf c (by rw [heq]; exact List.mem_cons_of_mem _ hc))]
      have hs : q + ((xs.map coerceRatQ).sum) = (l.map coerceRatQ).sum := by
        rw [← sum_coerceRatQ_filter l, heq]
        simp [coerceRatQ]
      rw [hs]

theorem mapOpt_mem_of_mem {α β : Type} {f : α → Option β} {l : List α} {l2 : List β}
    (h : mapOpt f l = some l2) : ∀ y ∈ l2, ∃ x ∈ l, f x = some y := by
  induction l generalizing l2 with
  | nil =>
      cases h
      simp
  | cons a as ih =>
      simp only [mapOpt] at h
      cases hfa : f a with
      | none => simp [hfa] at h
      | some y0 =>
          cases hrest : mapOpt f as with
          | none => simp [hfa, hrest] at h
          | some ys =>
              simp only [hfa, hrest] at h
              cases h
              intro y hy
              rcases List.mem_cons.mp hy with rfl | hmem
              · exact ⟨a, List.mem_cons_self _ _, hfa⟩
              · rcases ih hrest y hmem with ⟨x, hx, hfx⟩
                exact ⟨x, List.mem_cons_of_mem _ hx, hfx⟩

theorem mapOpt_mem_image {α β : Type} {f : α → Option β} {l : List α} {l2 : List β}
    (h : mapOpt f l = some l2) : ∀ x ∈ l, ∃ y ∈ l2, f x = some y := by
  induction l generalizing l2 with
  | nil => simp
  | cons a as ih =>
      simp only [mapOpt] at h
      cases hfa : f a with
      | none => simp [hfa] at h
      | some y0 =>
          cases hrest : mapOpt f as with
          | none => simp [hfa, hrest] at h
          | some ys =>
              simp only [hfa, hrest] at h
              cases h
              intro x hx
              rcases List.mem_cons.mp hx with rfl | hmem
              · exact ⟨y0, List.mem_cons_self _ _, hfa⟩
              · rcases ih hrest x hmem with ⟨y, hy, hfy⟩
                exact ⟨y, List.mem_cons_of_mem _ hy, hfy⟩

/-- Every Path B output record is the coercion of the aggregated cell of
one group of the first source, with matching identifier and product. -/
theorem pathB_record_from_group {df1 : Table1} {df2 : Table2} {out : List OutRowB}
    (h : process_spreadsheets_1_and_2 df1 df2 = .ok out) :
    ∀ rec ∈ out, ∃ g gr, df1_grouped df1.rows = some g ∧ gr ∈ g ∧
      gr.shipment_identifier = rec.shipment_identifier ∧
      gr.product = rec.product ∧ rec.quantity = coerceQty gr.quantity := by
  intro rec hrec
  rcases process_12_ok h with ⟨g, hg, hout⟩
  rw [hout] at hrec
  rcases List.mem_map.mp (mem_dedupFirst hrec) with ⟨mf, hmf, hrec2⟩
  rcases List.mem_map.mp hmf with ⟨m0, hm0, hmf2⟩
  rcases mem_mergeLeft hm0 with ⟨gr, hgr, hblock⟩
  have hk := mem_blockOf hblock
  subst hmf2
  subst hrec2
  exact ⟨g, gr, hg, hgr, hk.1.symm, hk.2.1.symm, congrArg coerceQty hk.2.2⟩

/-- First counterexample input for C1: one group whose quantities are the
numeric strings "5" and "4". -/
def c1df1 : Table1 :=
  ⟨["shipment_identifier", "product", "quantity"],
   [⟨some "a", some "p", Cell.str "5"⟩, ⟨some "a", some "p", Cell.str "4"⟩]⟩

/-- Second counterexample input for C1: an empty routing source. -/
def c1df2 : Table2 := ⟨["shipment_identifier", "origin", "destination"], []⟩

/-- C1 as stated is false: the group sums the string cells "5" and "4" by
concatenation to "54", and coercion after aggregation turns that into 54,
while the sum of the per-row coerced quantities is 9. -/
theorem c1_counterexample :
    process_spreadsheets_1_and_2 c1df1 c1df2 =
      .ok [⟨"a", "p", 54, Cell.str "Unknown", Cell.str "Unknown"⟩] ∧
    (c1df1.rows.map (fun r => coerceQty r.quantity)).sum = 9 ∧
    (54 : ℤ) ≠ 9 :=
  ⟨rfl, rfl, by decide⟩

/-- C1 amended: when every quantity cell of a group is numeric or absent,
the aggregated cell of that group is the numeric sum of the coerced
(numeric-or-0) quantities of the rows of the group; and every output
record carries the post-aggregation coercion of the aggregated cell of its
group.  For string cells aggregation concatenates instead, so the equality
fails. -/
theorem c1_amended_grouped_sum :
    (∀ (rows1 : List Row1) (g : List GRow), df1_grouped rows1 = some g →
      ∀ gr ∈ g,
        (∀ r ∈ groupRows rows1 (gr.shipment_identifier, gr.product), numOrAbsent r.quantity) →
        gr.quantity = Cell.num
          (((groupRows rows1 (gr.shipment_identifier, gr.product)).map
            (fun r => coerceRatQ r.quantity)).sum)) ∧
    (∀ (df1 : Table1) (df2 : Table2) (out : List OutRowB),
      process_spreadsheets_1_and_2 df1 df2 = .ok out →
      ∀ rec ∈ out, ∃ g gr, df1_grouped df1.rows = some g ∧ gr ∈ g ∧
        gr.shipment_identifier = rec.shipment_identifier ∧
        gr.product = rec.product ∧ rec.quantity = coerceQty gr.quantity) := by
  constructor
  · intro rows1 g hg gr hgr hnum
    unfold df1_grouped at hg
    rcases mapOpt_mem_of_mem hg gr hgr with ⟨k, hk, hfk⟩
    rcases Option.map_eq_some'.mp hfk with ⟨q, hsum, hgrq⟩
    subst hgrq
    have hnum2 : ∀ c ∈ (groupRows rows1 k).map (fun r => r.quantity), numOrAbsent c := by
      intro c hc
      rcases List.mem_map.mp hc with ⟨r, hr, rfl⟩
      exact hnum r hr
    have := sumCells_num hnum2
    rw [this] at hsum
    have hq := Option.some_injective _ hsum
    simp only [List.map_map] at hq
    exact hq.symm
  · intro df1 df2 out h rec hrec
    exact pathB_record_from_group h rec hrec

/-- Input rows for the C1 witness: one numeric and one absent quantity in
the same group. -/
def w1rows : List Row1 :=
  [⟨some "n", some "m", Cell.num 2⟩, ⟨some "n", some "m", Cell.absent⟩]

/-- Grouped form of the C1 witness input. -/
def w1g : List GRow := [⟨"n", "m", Cell.num 2⟩]

/-- Witness for the amended C1 at concrete inputs. -/
theorem c1_witness :
    (⟨"n", "m", Cell.num 2⟩ : GRow).quantity = Cell.num
      (((groupRows w1rows ("n", "m")).map (fun r => coerceRatQ r.quantity)).sum) := by
  have h := c1_amended_grouped_sum.1 w1rows w1g rfl ⟨"n", "m", Cell.num 2⟩ (by decide)
    (by
      intro r hr
      have he : groupRows w1rows ("n", "m") = w1rows := rfl
      rw [he] at hr
      rcases List.mem_cons.mp hr with rfl | hr2
      · trivial
      · rcases List.mem_cons.mp hr2 with rfl | hr3
        · trivial
        · simp at hr3)
  exact h

/-- First counterexample input for C10: one group with two rows of
fractional quantity 3/5. -/
def c10df1 : Table1 :=
  ⟨["shipment_identifier", "product", "quantity"],
   [⟨some "b", some "q", Cell.num (mkRat 3 5)⟩, ⟨some "b", some "q", Cell.num (mkRat 3 5)⟩]⟩

/-- Second counterexample input for C10. -/
def c10df2 : Table2 := ⟨["shipment_identifier", "origin", "destination"], []⟩

/-- C10 as stated is false in Path B: each row carries 3/5, whose
truncation toward zero is 0, but the output record carries the truncation
of the aggregated sum 6/5, which is 1. -/
theorem c10_counterexample :
    ratTrunc (mkRat 3 5) = 0 ∧
    process_spreadsheets_1_and_2 c10df1 c10df2 =
      .ok [⟨"b", "q", 1, Cell.str "Unknown", Cell.str "Unknown"⟩] ∧
    (1 : ℤ) ≠ 0 :=
  ⟨rfl, rfl, by decide⟩

/-- C10 amended: coercion truncates toward zero, applied to the cell the
path coerces: in Path A the row cell itself, in Path B the aggregated
group cell, so a fractional value is truncated per row only in Path A;
every output quantity is an integer by the type of the record. -/
theorem c10_amended_truncation :
    (∀ q : ℚ, coerceQty (Cell.num q) = ratTrunc q) ∧
    (∀ (s : String) (q : ℚ), parseNumeric s = some q →
      coerceQty (Cell.str s) = ratTrunc q) ∧
    (∀ (df1 : Table1) (df2 : Table2) (out : List OutRowB),
      process_spreadsheets_1_and_2 df1 df2 = .ok out →
      ∀ rec ∈ out, ∃ g gr, df1_grouped df1.rows = some g ∧ gr ∈ g ∧
        rec.quantity = coerceQty gr.quantity) := by
  refine ⟨fun q => rfl, ?_, ?_⟩
  · intro s q hs
    simp [coerceQty, hs]
  · intro df1 df2 out h rec hrec
    rcases pathB_record_from_group h rec hrec with ⟨g, gr, hg, hgr, _, _, hq⟩
    exact ⟨g, gr, hg, hgr, hq⟩

/-- Witness for the amended C10 at a concrete input: "5.7" coerces to 5. -/
theorem c10_witness : coerceQty (Cell.str "5.7") = 5 := by
  have h := c10_amended_truncation.2.1 "5.7" (mkRat 57 10) rfl
  rw [h]
  rfl

/-! ## Pipeline error containment (C6) and connection release (C7) -/

/-- Spreadsheet 0 for the C6 failing run: well-formed, one record. -/
def c6table0 : Table0 :=
  ⟨["shipment_identifier", "product", "quantity"],
   [⟨Cell.str "s1", Cell.str "w", Cell.num 5, Cell.absent, Cell.absent⟩]⟩

/-- Spreadsheet 1 for the C6 failing run: well-formed, one record. -/
def c6table1 : Table1 :=
  ⟨["shipment_identifier", "product", "quantity"], [⟨some "a", some "p", Cell.num 1⟩]⟩

/-- Spreadsheet 2 for the C6 failing run. -/
def c6table2 : Table2 := ⟨["shipment_identifier", "origin", "destination"], []⟩

/-- The C6 failing input: all three sources present and readable, both
normalizations succeed with nonempty output, but the sqlite3.connect call
during the Path A store stage fails. -/
def c6env : Env :=
  ⟨true, true, true, true, true, some c6table0, some c6table1, some c6table2,
   false, true, true, true, true, true⟩

/-- C6 fails on the code: when the connection attempt of the Path A store
stage raises, the finally clause of insert_into_database evaluates
conn.close() with conn never bound, and the resulting error escapes the
stage; it is only caught by the blanket handler of main, so Path B is
never processed, even though the run still finishes.  The claim promises
that the store failure is contained in its stage and Path B continues. -/
theorem c6_store_failure_aborts_pathB :
    (mainRun c6env).pathAAttempted = true ∧
    (mainRun c6env).pathBAttempted = false ∧
    (mainRun c6env).mainCaught = true ∧
    (mainRun c6env).finished = true :=
  ⟨rfl, rfl, rfl, rfl⟩

/-- C7 as stated is false: when the verification query raises, the close
call (which sits inside the try block, after the query) is skipped, so the
connection acquired for verification is not released before the stage
returns. -/
theorem c7_counterexample :
    (verifyDb true false).2.opened = 1 ∧ (verifyDb true false).2.closed = 0 :=
  ⟨rfl, rfl⟩

/-- C7 amended: insert_into_database releases every connection it acquired
on every exit path, including a failing connection attempt (which acquires
nothing) and a failing insert; the verification connection is released
whenever the query succeeds or the connection attempt itself fails, but
not when the query fails. -/
theorem c7_amended_connection_release :
    (∀ (df : Option ℕ) (cOk iOk : Bool),
      (insert_into_database df cOk iOk).2.closed =
        (insert_into_database df cOk iOk).2.opened) ∧
    (∀ cOk : Bool,
      (verifyDb cOk true).2.closed = (verifyDb cOk true).2.opened) := by
  constructor
  · intro df cOk iOk
    cases df with
    | none => rfl
    | some n =>
        cases n with
        | zero => rfl
        | succ m => cases cOk <;> rfl
  · intro cOk
    cases cOk <;> rfl

/-! ## Output ordering (C9) -/

theorem keyLe_refl (a : String × String) : keyLe a a = true := by
  simp [keyLe]

theorem string_eq_of_toList_eq {a b : String} (h : a.toList = b.toList) : a = b := by
  cases a
  cases b
  simp only [String.toList] at h
  rw [h]

theorem keyLe_total (a b : String × String) : keyLe a b = true ∨ keyLe b a = true := by
  simp only [keyLe, decide_eq_true_eq]
  rcases lt_trichotomy a.1.toList b.1.toList with h | h | h
  · exact Or.inl (Or.inl h)
  · have he : a.1 = b.1 := string_eq_of_toList_eq h
    rcases le_total a.2.toList b.2.toList with h2 | h2
    · exact Or.inl (Or.inr ⟨he, h2⟩)
    · exact Or.inr (Or.inr ⟨he.symm, h2⟩)
  · exact Or.inr (Or.inl h)

theorem keyLe_trans {a b c : String × String} (h1 : keyLe a b = true)
    (h2 : keyLe b c = true) : keyLe a c = true := by
  simp only [keyLe, decide_eq_true_eq] at h1 h2 ⊢
  rcases h1 with h1 | ⟨h1e, h1le⟩
  · rcases h2 with h2 | ⟨h2e, h2le⟩
    · exact Or.inl (h1.trans h2)
    · exact Or.inl (by rw [← h2e]; exact h1)
  · rcases h2 with h2 | ⟨h2e, h2le⟩
    · exact Or.inl (by rw [h1e]; exact h2)
    · exact Or.inr ⟨h1e.trans h2e, h1le.trans h2le⟩

theorem mem_insertLe {α : Type} {le : α → α → Bool} {x y : α} {l : List α}
    (h : y ∈ insertLe le x l) : y = x ∨ y ∈ l := by
  induction l with
  | nil => simpa [insertLe] using h
  | cons a as ih =>
      simp only [insertLe] at h
      split at h
      · rcases List.mem_cons.mp h with rfl | h2
        · exact Or.inl rfl
        · exact Or.inr h2
      · rcases List.mem_cons.mp h with rfl | h2
        · exact Or.inr (List.mem_cons_self _ _)
        · rcases ih h2 with rfl | h3
          · exact Or.inl rfl
          · exact Or.inr (List.mem_cons_of_mem _ h3)

theorem pairwise_insertLe {x : String × String} {l : List (String × String)}
    (hl : l.Pairwise (fun a b => keyLe a b = true)) :
    (insertLe keyLe x l).Pairwise (fun a b => keyLe a b = true) := by
  induction l with
  | nil => simp [insertLe]
  | cons a as ih =>
      rcases List.pairwise_cons.mp hl with ⟨ha, has⟩
      simp only [insertLe]
      split
      case isTrue hxa =>
          refine List.Pairwise.cons ?_ hl
          intro b hb
          rcases List.mem_cons.mp hb with rfl | hb2
          · exact hxa
          · exact keyLe_trans hxa (ha b hb2)
      case isFalse hxa =>
          have hax : keyLe a x = true := by
            rcases keyLe_total x a with h | h
            · exact absurd h hxa
            · exact h
          refine List.Pairwise.cons ?_ (ih has)
          intro b hb
          rcases mem_insertLe hb with rfl | hb2
          · exact hax
          · exact ha b hb2

theorem pairwise_sortLe (l : List (String × String)) :
    (sortLe keyLe l).Pairwise (fun a b => keyLe a b = true) := by
  induction l with
  | nil => simp [sortLe]
  | cons a as ih => exact pairwise_insertLe ih

theorem mapOpt_pairwise {α β : Type} {R : α → α → Prop} {S : β → β → Prop}
    {f : α → Option β} {l : List α} {l2 : List β}
    (h : mapOpt f l = some l2) (hl : l.Pairwise R)
    (hf : ∀ a b ya yb, R a b → f a = some ya → f b = some yb → S ya yb) :
    l2.Pairwise S := by
  induction l generalizing l2 with
  | nil =>
      cases h
      exact List.Pairwise.nil
  | cons a as ih =>
      simp only [mapOpt] at h
      cases hfa : f a with
      | none => simp [hfa] at h
      | some y0 =>
          cases hrest : mapOpt f as with
          | none => simp [hfa, hrest] at h
          | some ys =>
              simp only [hfa, hrest] at h
              cases h
              rcases List.pairwise_cons.mp hl with ⟨hhead, htail⟩
              refine List.Pairwise.cons ?_ (ih hrest htail)
              intro yb hyb
              rcases mapOpt_mem_of_mem hrest yb hyb with ⟨b, hb, hfb⟩
              exact hf a b y0 yb (hhead b hb) hfa hfb

/-- The group key of a grouped row. -/
def gkey (gr : GRow) : String × String := (gr.shipment_identifier, gr.product)

/-- The group key of a merged row. -/
def mkey (m : MRow) : String × String := (m.shipment_identifier, m.product)

/-- The group key of a Path B output record. -/
def okey (r : OutRowB) : String × String := (r.shipment_identifier, r.product)

theorem df1_grouped_pairwise {rows1 : List Row1} {g : List GRow}
    (h : df1_grouped rows1 = some g) :
    g.Pairwise (fun a b => keyLe (gkey a) (gkey b) = true) := by
  unfold df1_grouped at h
  refine mapOpt_pairwise h (pairwise_sortLe _) ?_
  intro a b ya yb hR hfa hfb
  rcases Option.map_eq_some'.mp hfa with ⟨qa, hqa, hya⟩
  rcases Option.map_eq_some'.mp hfb with ⟨qb, hqb, hyb⟩
  subst hya
  subst hyb
  exact hR

theorem mergeLeft_pairwise {g : List GRow} (rows2 : List Row2)
    (hg : g.Pairwise (fun a b => keyLe (gkey a) (gkey b) = true)) :
    (mergeLeft g rows2).Pairwise (fun a b => keyLe (mkey a) (mkey b) = true) := by
  induction g with
  | nil => simp [mergeLeft]
  | cons gr rest ih =>
      rcases List.pairwise_cons.mp hg with ⟨hhead, htail⟩
      simp only [mergeLeft]
      rw [List.pairwise_append]
      refine ⟨?_, ih htail, ?_⟩
      · apply List.pairwise_of_forall_mem_list
        intro a ha b hb
        have ka := mem_blockOf ha
        have kb := mem_blockOf hb
        have ha2 : mkey a = gkey gr := by
          simp [mkey, gkey, ka.1, ka.2.1]
        have hb2 : mkey b = gkey gr := by
          simp [mkey, gkey, kb.1, kb.2.1]
        rw [ha2, hb2]
        exact keyLe_refl _
      · intro a ha b hb
        have ka := mem_blockOf ha
        have ha2 : mkey a = gkey gr := by
          simp [mkey, gkey, ka.1, ka.2.1]
        rcases mem_mergeLeft hb with ⟨gr2, hgr2, hb2⟩
        have kb := mem_blockOf hb2
        have hb3 : mkey b = gkey gr2 := by
          simp [mkey, gkey, kb.1, kb.2.1]
        rw [ha2, hb3]
        exact hhead gr2 hgr2

/-- C9: the Path B output is ordered ascending by the
(shipment_identifier, product) key the grouping step sorted on, and the
record surviving for an identifier that groups several products is the
one with the least product key. -/
theorem c9_output_sorted_min_product :
    ∀ (df1 : Table1) (df2 : Table2) (out : List OutRowB),
      process_spreadsheets_1_and_2 df1 df2 = .ok out →
      out.Pairwise (fun a b => keyLe (okey a) (okey b) = true) ∧
      ∀ rec ∈ out, ∀ p, (rec.shipment_identifier, p) ∈ groupKeysOf df1.rows →
        rec.product ≤ p := by
  intro df1 df2 out h
  rcases process_12_ok h with ⟨g, hg, hout⟩
  have hgp := df1_grouped_pairwise hg
  have hmp := mergeLeft_pairwise df2.rows hgp
  have hLp : (((mergeLeft g df2.rows).map fillRow).map coerceMRow).Pairwise
      (fun a b => keyLe (okey a) (okey b) = true) := by
    rw [List.pairwise_map, List.pairwise_map]
    exact hmp
  constructor
  · rw [hout]
    exact List.Pairwise.sublist (dedupFirst_sublist _ _) hLp
  · intro rec hrec p hp
    have hfind : (((mergeLeft g df2.rows).map fillRow).map coerceMRow).find?
        (fun y => decide (y.shipment_identifier = rec.shipment_identifier)) = some rec := by
      rw [hout] at hrec
      exact dedupFirst_find? hrec
    unfold df1_grouped at hg
    rcases mapOpt_mem_image hg (rec.shipment_identifier, p) hp with ⟨gr, hgrg, hfgr⟩
    rcases Option.map_eq_some'.mp hfgr with ⟨q, hsum, hgreq⟩
    subst hgreq
    rcases blockOf_exists_mem ⟨rec.shipment_identifier, p, q⟩ df2.rows with ⟨m, hmB, hmf⟩
    have hmm : m ∈ mergeLeft g df2.rows := mergeLeft_mem_of_block hgrg hmB
    have hbL : coerceMRow (fillRow m) ∈ ((mergeLeft g df2.rows).map fillRow).map coerceMRow :=
      List.mem_map_of_mem _ (List.mem_map_of_mem _ hmm)
    have hbid : (coerceMRow (fillRow m)).shipment_identifier = rec.shipment_identifier := hmf.1
    have hbprod : (coerceMRow (fillRow m)).product = p := hmf.2.1
    have hres := find?_min_of_pairwise hLp hfind hbL (by simp [hbid])
    rcases hres with heq | hle
    · rw [heq, hbprod]
    · simp only [keyLe, okey, decide_eq_true_eq, hbid, hbprod] at hle
      rcases hle with hlt | hle2
      · exact absurd hlt (lt_irrefl _)
      · exact String.le_iff_toList_le.mpr hle2.2

/-- First input for the C9 witness: the products arrive in the order z, a
under one identifier. -/
def w9df1 : Table1 :=
  ⟨["shipment_identifier", "product", "quantity"],
   [⟨some "k", some "z", Cell.num 1⟩, ⟨some "k", some "a", Cell.num 2⟩]⟩

/-- Second input for the C9 witness. -/
def w9df2 : Table2 := ⟨["shipment_identifier", "origin", "destination"], []⟩

/-- Output of Path B on the C9 witness input: the record with the least
product key survives, not the first source row. -/
def w9out : List OutRowB :=
  [⟨"k", "a", 2, Cell.str "Unknown", Cell.str "Unknown"⟩]

/-- Witness for C9 at concrete inputs. -/
theorem c9_witness :
    (⟨"k", "a", 2, Cell.str "Unknown", Cell.str "Unknown"⟩ : OutRowB).product ≤ "z" :=
  (c9_output_sorted_min_product w9df1 w9df2 w9out rfl).2
    ⟨"k", "a", 2, Cell.str "Unknown", Cell.str "Unknown"⟩ (by decide) "z" (by decide)
